import Mathlib

/- Formal model of the appimagelauncherfs virtual filesystem core
   (src/fusefs/fs.cpp): the in-memory registry of AppImages, the
   virtual path resolver, and the FUSE request handlers.  External
   OS facilities (the boost::filesystem queries and open) are
   abstracted as an environment of boolean oracles.  The size_t
   arithmetic that the handlers perform is modelled with explicit
   mod 2 ^ 64, and the int range of std::stoi with explicit bounds. -/

/-- RegisteredAppImage: id and absolute path of one registered file.
The open file descriptor kept by the C++ class is not needed by the
properties below and is omitted. -/
structure Entry where
  id : Int
  path : String
deriving DecidableEq, Repr

/-- RegisteredAppImage default constructor: id -1 and an empty path. -/
def defaultEntry : Entry := { id := -1, path := "" }

/-- The static registry map and the monotonically increasing id
counter (PrivateData::registeredAppImages and PrivateData::counter). -/
structure FsState where
  entries : List (Int × Entry)
  counter : Int
deriving DecidableEq, Repr

/-- Process start state: empty registry, counter at 0. -/
def initState : FsState := { entries := [], counter := 0 }

/-- Environment of OS calls made by the handlers: bf::exists,
bf::is_regular_file, bf::absolute, and whether opening a path
read-only succeeds. -/
structure Env where
  pathExists : String → Bool
  isRegularFile : String → Bool
  absolute : String → String
  canOpen : String → Bool

/-- One decimal digit rendered as a character. -/
def digitChar (d : Nat) : Char := Char.ofNat (48 + d)

/-- Decimal rendering of a natural number, most significant digit
first, as an output stream produces it.  Structural recursion on a
fuel argument (always called with enough fuel) keeps the function
reducible inside the kernel. -/
def natDigitsFuel : Nat → Nat → List Char
  | 0, n => [digitChar n]
  | fuel + 1, n =>
    if n < 10 then [digitChar n]
    else natDigitsFuel fuel (n / 10) ++ [digitChar (n % 10)]

def natDigits (n : Nat) : List Char := natDigitsFuel n n

theorem natDigitsFuel_congr :
    ∀ (f1 : Nat), ∀ (f2 n : Nat), n ≤ f1 → n ≤ f2 → natDigitsFuel f1 n = natDigitsFuel f2 n := by
  intro f1
  induction f1 with
  | zero =>
    intro f2 n h1 h2
    have : n = 0 := by omega
    subst this
    cases f2 with
    | zero => rfl
    | succ f2 => rw [natDigitsFuel, natDigitsFuel, if_pos (by omega)]
  | succ f1 ih =>
    intro f2 n h1 h2
    cases f2 with
    | zero =>
      have : n = 0 := by omega
      subst this
      rw [natDigitsFuel, natDigitsFuel, if_pos (by omega)]
    | succ f2 =>
      rw [natDigitsFuel, natDigitsFuel]
      by_cases hn : n < 10
      · rw [if_pos hn, if_pos hn]
      · rw [if_neg hn, if_neg hn]
        rw [ih f2 (n / 10) (by omega) (by omega)]

/-- Unfolding rule of the decimal rendering. -/
theorem natDigits_eq (n : Nat) :
    natDigits n = if n < 10 then [digitChar n] else natDigits (n / 10) ++ [digitChar (n % 10)] := by
  rw [natDigits]
  cases n with
  | zero => rw [natDigitsFuel, if_pos (by omega)]
  | succ m =>
    rw [natDigitsFuel]
    by_cases hn : m + 1 < 10
    · rw [if_pos hn, if_pos hn]
    · rw [if_neg hn, if_neg hn, natDigits]
      rw [natDigitsFuel_congr m ((m + 1) / 10) ((m + 1) / 10) (by omega) (by omega)]

/-- std::setfill(0) with std::setw(4): left pad to width 4. -/
def padLeft4 (cs : List Char) : List Char := List.replicate (4 - cs.length) '0' ++ cs

/-- Stream rendering of an int value: sign, then digits. -/
def intRepr (i : Int) : List Char :=
  if i < 0 then '-' :: natDigits (-i).toNat else natDigits i.toNat

/-- generateFilenameForId: the id zero padded to width 4, followed by
the fixed suffix. -/
def filenameChars (i : Int) : List Char := padLeft4 (intRepr i) ++ ".AppImage".data

def generateFilenameForId (i : Int) : String := String.mk (filenameChars i)

inductive StoiResult where
  | ok (v : Int)
  | invalidArg
  | outOfRange
deriving DecidableEq, Repr

def isSpaceChar (c : Char) : Bool :=
  c == ' ' || c == '\t' || c == '\n' || c == '\x0b' || c == '\x0c' || c == '\r'

def isDigitChar (c : Char) : Bool := 48 ≤ c.toNat && c.toNat ≤ 57

def charDigitVal (c : Char) : Int := ((c.toNat - 48 : Nat) : Int)

def digitsVal (cs : List Char) : Int :=
  cs.foldl (fun acc c => 10 * acc + charDigitVal c) 0

/-- Digit part of std::stoi: longest digit run, its numeric value,
and the int range check (std::out_of_range outside it). -/
def stoiCore (sign : Int) (cs : List Char) : StoiResult :=
  let digits := cs.takeWhile isDigitChar
  if digits.isEmpty then .invalidArg
  else
    let v := sign * digitsVal digits
    if v < -2147483648 ∨ 2147483647 < v then .outOfRange else .ok v

/-- std::stoi: optional whitespace, optional sign, then a digit run;
no conversion at all is std::invalid_argument. -/
def stoiChars (cs : List Char) : StoiResult :=
  match cs.dropWhile isSpaceChar with
  | [] => .invalidArg
  | c :: rest =>
    if c == '-' then stoiCore (-1) rest
    else if c == '+' then stoiCore 1 rest
    else stoiCore 1 (c :: rest)

inductive ResolveResult where
  | ok (e : Entry)
  | notFound
  | invalidPath
  | outOfRange
deriving DecidableEq, Repr

/-- Registry access of mapPathToRegisteredAppImage: the operator[]
lookup (which default inserts a missing key), the staleness check and
the eviction.  The third component of the result lists the ids of
entries that were present before the call and were erased by it. -/
def lookupPhase (env : Env) (st : FsState) (id : Int) : ResolveResult × FsState × List Int :=
  match st.entries.find? (fun kv => kv.1 == id) with
  | some kv =>
    if env.isRegularFile kv.2.path then (.ok kv.2, st, [])
    else (.notFound, { st with entries := st.entries.filter (fun kv2 => !(kv2.1 == id)) }, [id])
  | none =>
    if env.isRegularFile defaultEntry.path then
      (.ok defaultEntry, { st with entries := (id, defaultEntry) :: st.entries }, [])
    else
      (.notFound,
        { st with
            entries := ((id, defaultEntry) :: st.entries).filter (fun kv2 => !(kv2.1 == id)) },
        [])

/-- mapPathToRegisteredAppImage on the character list of the path:
strsep at the first dot, require a leading slash (else the invalid
path error), std::stoi the numeral after the slash (only
std::invalid_argument is caught and turned into the not-found error;
std::out_of_range escapes, modelled by the outOfRange result),
require the whole path to equal the canonical rendering for the
parsed id, then look the id up in the registry. -/
def resolveChars (env : Env) (st : FsState) (cs : List Char) : ResolveResult × FsState × List Int :=
  let firstPart := cs.takeWhile (fun c => !(c == '.'))
  if firstPart.head? = some '/' then
    match stoiChars firstPart.tail with
    | .invalidArg => (.notFound, st, [])
    | .outOfRange => (.outOfRange, st, [])
    | .ok id =>
      if cs = '/' :: filenameChars id then lookupPhase env st id
      else (.notFound, st, [])
  else (.invalidPath, st, [])

def mapPathToRegisteredAppImage (env : Env) (st : FsState) (path : String) :
    ResolveResult × FsState × List Int :=
  resolveChars env st path.data

inductive RegResult where
  | ok (id : Int)
  | fileNotFound
  | alreadyRegistered (id : Int)
  | couldNotOpen
deriving DecidableEq, Repr

/-- registerAppImage: existence check, linear scan for a duplicate
path, then counter increment followed by construction of the entry
(whose open of the file can still fail, after the counter was already
bumped) and insertion under the fresh id. -/
def registerAppImage (env : Env) (st : FsState) (p : String) : RegResult × FsState :=
  if env.pathExists p = true then
    match st.entries.find? (fun kv => p == kv.2.path) with
    | some kv => (.alreadyRegistered kv.1, st)
    | none =>
      if env.canOpen (env.absolute p) = true then
        (.ok st.counter,
          { entries := (st.counter, { id := st.counter, path := env.absolute p }) :: st.entries,
            counter := st.counter + 1 })
      else (.couldNotOpen, { st with counter := st.counter + 1 })
  else (.fileNotFound, st)

def entryLine (kv : Int × Entry) : String :=
  generateFilenameForId kv.1 ++ " -> " ++ kv.2.path ++ "\n"

/-- generateTextMap: render one line per entry whose backing file
still exists on disk, and erase the stale entries from the registry.
Also returns the ids that were erased. -/
def generateTextMap (env : Env) (st : FsState) : String × FsState × List Int :=
  let staleIds := (st.entries.filter (fun kv => !(env.isRegularFile kv.2.path))).map (fun kv => kv.1)
  (String.join ((st.entries.filter (fun kv => env.isRegularFile kv.2.path)).map entryLine),
    { st with entries := st.entries.filter (fun kv => !(staleIds.contains kv.1)) },
    staleIds)

/-- readdir: only the root can be listed; it yields the two dot
entries, the two control files, then one synthetic name per entry of
the registry (with no staleness check). -/
def readdir (st : FsState) (path : String) : Except Int (List String) :=
  if path = "/" then
    .ok ([".", "..", "map", "register"] ++ st.entries.map (fun kv => generateFilenameForId kv.1))
  else .error (-2)

def strBytes (s : String) : List Nat := s.data.map Char.toNat

def exceptBytes (r : Except Int (List Nat)) : List Nat :=
  match r with
  | .ok l => l
  | .error _ => []

/-- handleReadMap on the rendered listing bytes: the offset bound
check, bytesToCopy = min(bufsize, size) - offset computed in size_t
(mod 2 ^ 64) arithmetic, the INT32_MAX guard, and the memcpy window
starting at offset. -/
def handleReadMapBytes (mapBytes : List Nat) (bufsize offset : Nat) : Except Int (List Nat) :=
  if offset > mapBytes.length then .error (-5)
  else
    let bytesToCopy := (((min bufsize mapBytes.length : Int) - (offset : Int)).emod (2 ^ 64)).toNat
    if bytesToCopy > 2147483647 then .error (-5)
    else .ok ((mapBytes.drop offset).take bytesToCopy)

/-- handleReadMap: the listing text is synthesized freshly (evicting
stale entries as a side effect) and the byte window is served from
it. -/
def handleReadMap (env : Env) (st : FsState) (bufsize offset : Nat) :
    Except Int (List Nat) × FsState :=
  (handleReadMapBytes (strBytes (generateTextMap env st).1) bufsize offset,
    (generateTextMap env st).2.1)

def registerMsg : String :=
  "Write paths to AppImages into this virtual file, one per line, to register them\n"

/-- handleWriteRegister, the read handler of the register file:
bytesToWrite = min(bufsize, strlen(msg)) - offset in size_t
arithmetic, then memcpy(buf + offset, msg, bytesToWrite) and return
bytesToWrite, so the kernel is handed buffer cells 0 to
bytesToWrite - 1; the cells below offset keep whatever the buffer
held before (buf0). -/
def handleWriteRegister (buf0 : Nat → Nat) (bufsize offset : Nat) : Except Int (List Nat) :=
  let msg := strBytes registerMsg
  let bytesToWrite := (((min bufsize msg.length : Int) - (offset : Int)).emod (2 ^ 64)).toNat
  if bytesToWrite > 2147483647 then .error (-5)
  else
    .ok ((List.range bytesToWrite).map (fun i =>
      if offset ≤ i then msg.getD (i - offset) 0 else buf0 i))

def magicBytesBegin : Int := 8
def magicBytesEnd : Int := 10

/-- handleReadRegisteredAppImage: pread fills the buffer with the
window of the real file, then whenever offset <= 10 the bytes at
buffer positions beg = 8 - offset (which can point before the start
of the buffer) through beg + count - 1, with
count = min(min(10 - offset, 2), bufsize) + 1, are set to zero.  The
returned list holds the bytes the kernel sees: buffer cells 0 to
bytesRead - 1. -/
def handleReadRegisteredAppImage (fileData : Nat → Nat) (fileSize bufsize offset : Nat) :
    Except Int (List Nat) :=
  let bytesRead := min bufsize (fileSize - offset)
  if bytesRead > 2147483647 then .error (-5)
  else if (offset : Int) ≤ magicBytesEnd then
    let beg : Int := magicBytesBegin - (offset : Int)
    let count : Nat := min (min (magicBytesEnd.toNat - offset) 2) bufsize + 1
    .ok ((List.range bytesRead).map (fun (i : Nat) =>
      if beg ≤ (i : Int) ∧ (i : Int) < beg + (count : Int) then 0 else fileData (offset + i)))
  else
    .ok ((List.range bytesRead).map (fun i => fileData (offset + i)))

/-- Trailing line end strip loop of release: while back() is a
newline or carriage return, pop_back().  Calling back() on an empty
string is out of bounds; that undefined access is modelled as none.
The loop walks the string from its end, hence the reversed list. -/
def stripRev : List Char → Option (List Char)
  | [] => none
  | c :: rest => if c == '\n' || c == '\r' then stripRev rest else some (c :: rest)

def stripTrailingNewlines (cs : List Char) : Option (List Char) :=
  (stripRev cs.reverse).map List.reverse

/-- release on the register path with the per handle buffer: strip
trailing line ends, invoke registerAppImage, absorb every modelled
registration error (they all derive from AppImageLauncherFSError and
are caught), free the buffer and return 0 to the caller.  none models
the out of bounds back() of the strip loop. -/
def release (env : Env) (st : FsState) (path : String) (buf : Option (List Char)) :
    Option (Int × FsState) :=
  match buf with
  | none => some (0, st)
  | some content =>
    if path = "/register" then
      match stripTrailingNewlines content with
      | none => none
      | some stripped => some (0, (registerAppImage env st (String.mk stripped)).2)
    else some (0, st)

/-- The registry mutating operations a process lifetime interleaves:
registration, path resolution (with its lazy eviction), and listing
rendering (with its eviction sweep). -/
inductive Op where
  | opRegister (p : String)
  | opResolve (p : String)
  | opRenderMap

/-- Observable registry events: an id handed out by a successful
registration, or an id whose entry was evicted. -/
inductive Event where
  | assigned (id : Int)
  | evicted (id : Int)
deriving DecidableEq, Repr

def step (env : Env) (st : FsState) : Op → FsState × List Event
  | .opRegister p =>
    match registerAppImage env st p with
    | (.ok id, st1) => (st1, [.assigned id])
    | (_, st1) => (st1, [])
  | .opResolve p =>
    ((resolveChars env st p.data).2.1, (resolveChars env st p.data).2.2.map .evicted)
  | .opRenderMap =>
    ((generateTextMap env st).2.1, (generateTextMap env st).2.2.map .evicted)

def runOps (env : Env) (st : FsState) : List Op → FsState × List Event
  | [] => (st, [])
  | op :: ops =>
    ((runOps env (step env st op).1 ops).1,
      (step env st op).2 ++ (runOps env (step env st op).1 ops).2)

/-- Registry invariant: every key of the map is below the counter. -/
def RegInv (st : FsState) : Prop := ∀ kv ∈ st.entries, kv.1 < st.counter

/-- Order constraints between two events, the earlier one first:
assigned ids grow strictly, and an evicted id is never assigned
later. -/
def eventOk : Event → Event → Prop
  | .assigned a, .assigned b => a < b
  | .evicted e, .assigned a => e ≠ a
  | _, _ => True

/- Concrete environments and registry states used to instantiate the
theorems below. -/

def envAllTrue : Env :=
  { pathExists := fun _ => true, isRegularFile := fun _ => true,
    absolute := id, canOpen := fun _ => true }

def envAllFalse : Env :=
  { pathExists := fun _ => false, isRegularFile := fun _ => false,
    absolute := id, canOpen := fun _ => false }

def stC3 : FsState := { entries := [(0, { id := 0, path := "/a" })], counter := 1 }

def stGone : FsState := { entries := [(2, { id := 2, path := "/gone2" })], counter := 3 }

def stStale : FsState := { entries := [(0, { id := 0, path := "/gone" })], counter := 1 }

def entW5 : Entry := { id := 3, path := "/w5" }

def stW5 : FsState := { entries := [(3, entW5)], counter := 4 }

def stW2 : FsState := { entries := [(1, { id := 1, path := "/w2" })], counter := 2 }

def envW2 : Env :=
  { pathExists := fun _ => true, isRegularFile := fun p => p == "/w2",
    absolute := id, canOpen := fun _ => true }

def envW9 : Env :=
  { pathExists := fun p => p == "/w9" || p == "/w9b", isRegularFile := fun p => p == "/w9",
    absolute := id, canOpen := fun _ => true }

/- Helper lemmas about the decimal rendering and std::stoi. -/

theorem digitChar_bounds (d : Nat) (hd : d < 10) :
    48 ≤ (digitChar d).toNat ∧ (digitChar d).toNat ≤ 57 := by
  interval_cases d <;> decide

theorem natDigits_digits (n : Nat) :
    ∀ c ∈ natDigits n, 48 ≤ c.toNat ∧ c.toNat ≤ 57 := by
  induction n using Nat.strong_induction_on with
  | _ n ih =>
    rw [natDigits_eq]
    split
    · next h =>
      intro c hc
      rw [List.mem_singleton] at hc
      subst hc
      exact digitChar_bounds n h
    · next h =>
      intro c hc
      rw [List.mem_append] at hc
      rcases hc with hc | hc
      · exact ih (n / 10) (Nat.div_lt_self (by omega) (by omega)) c hc
      · rw [List.mem_singleton] at hc
        subst hc
        exact digitChar_bounds (n % 10) (Nat.mod_lt _ (by omega))

theorem natDigits_ne_nil (n : Nat) : natDigits n ≠ [] := by
  rw [natDigits_eq]
  split <;> simp

theorem charDigitVal_digitChar (d : Nat) (hd : d < 10) :
    charDigitVal (digitChar d) = (d : Int) := by
  interval_cases d <;> decide

theorem digitsVal_natDigits (n : Nat) : digitsVal (natDigits n) = (n : Int) := by
  induction n using Nat.strong_induction_on with
  | _ n ih =>
    rw [natDigits_eq]
    split
    · next h =>
      show 10 * 0 + charDigitVal (digitChar n) = (n : Int)
      rw [charDigitVal_digitChar n h]
      omega
    · next h =>
      show digitsVal (natDigits (n / 10) ++ [digitChar (n % 10)]) = (n : Int)
      rw [digitsVal, List.foldl_append, List.foldl_cons, List.foldl_nil]
      have hrec := ih (n / 10) (Nat.div_lt_self (by omega) (by omega))
      rw [digitsVal] at hrec
      rw [hrec, charDigitVal_digitChar (n % 10) (Nat.mod_lt _ (by omega))]
      omega

theorem digitsVal_pad (j : Nat) (l : List Char) :
    digitsVal (List.replicate j '0' ++ l) = digitsVal l := by
  induction j with
  | zero => rw [List.replicate, List.nil_append]
  | succ j ihj =>
    rw [List.replicate_succ, List.cons_append, digitsVal, List.foldl_cons]
    have h0 : 10 * (0 : Int) + charDigitVal '0' = 0 := by decide
    rw [h0]
    exact ihj

theorem takeWhile_all {p : Char → Bool} :
    ∀ {l : List Char}, (∀ a ∈ l, p a = true) → l.takeWhile p = l := by
  intro l h
  induction l with
  | nil => rfl
  | cons a t ih =>
    rw [List.takeWhile_cons, h a (List.mem_cons_self a t)]
    rw [ih (fun b hb => h b (List.mem_cons_of_mem a hb))]
    rw [if_pos rfl]

theorem takeWhile_append_all {p : Char → Bool} {l1 l2 : List Char}
    (h : ∀ a ∈ l1, p a = true) :
    (l1 ++ l2).takeWhile p = l1 ++ l2.takeWhile p := by
  induction l1 with
  | nil => rfl
  | cons a t ih =>
    rw [List.cons_append, List.takeWhile_cons, h a (List.mem_cons_self a t)]
    rw [ih (fun b hb => h b (List.mem_cons_of_mem a hb))]
    rw [if_pos rfl, List.cons_append]

theorem padLeft4_digits (n : Nat) :
    ∀ c ∈ padLeft4 (natDigits n), 48 ≤ c.toNat ∧ c.toNat ≤ 57 := by
  intro c hc
  rw [padLeft4, List.mem_append] at hc
  rcases hc with hc | hc
  · rw [List.eq_of_mem_replicate hc]
    decide
  · exact natDigits_digits n c hc

theorem digit_range_props (c : Char) (h : 48 ≤ c.toNat ∧ c.toNat ≤ 57) :
    isDigitChar c = true ∧ isSpaceChar c = false ∧ (c == '.') = false ∧
      (c == '-') = false ∧ (c == '+') = false := by
  refine ⟨by simp [isDigitChar]; omega, ?_, ?_, ?_, ?_⟩
  · by_contra hs
    rw [Bool.not_eq_false, isSpaceChar] at hs
    simp only [Bool.or_eq_true, beq_iff_eq] at hs
    rcases hs with ((((hs | hs) | hs) | hs) | hs) | hs <;> subst hs <;> revert h <;> decide
  · by_contra hs
    rw [Bool.not_eq_false, beq_iff_eq] at hs
    subst hs
    revert h
    decide
  · by_contra hs
    rw [Bool.not_eq_false, beq_iff_eq] at hs
    subst hs
    revert h
    decide
  · by_contra hs
    rw [Bool.not_eq_false, beq_iff_eq] at hs
    subst hs
    revert h
    decide

theorem stoi_padded (k : Nat) (hk : k ≤ 2147483647) :
    stoiChars (padLeft4 (natDigits k)) = .ok (k : Int) := by
  rcases hl : padLeft4 (natDigits k) with _ | ⟨c, t⟩
  · exfalso
    have := natDigits_ne_nil k
    rw [padLeft4] at hl
    rcases List.append_eq_nil.mp hl with ⟨-, h2⟩
    exact this h2
  · have hmem : ∀ a ∈ c :: t, 48 ≤ a.toNat ∧ a.toNat ≤ 57 := by
      rw [← hl]
      exact padLeft4_digits k
    have hc := digit_range_props c (hmem c (List.mem_cons_self c t))
    rw [stoiChars, List.dropWhile_cons, hc.2.1]
    simp only [Bool.false_eq_true, if_false, hc.2.2.2.1, hc.2.2.2.2]
    rw [stoiCore]
    have hdig : (c :: t).takeWhile isDigitChar = c :: t :=
      takeWhile_all (fun a ha => (digit_range_props a (hmem a ha)).1)
    simp only [hdig, List.isEmpty_cons, Bool.false_eq_true, if_false]
    have hval : digitsVal (c :: t) = (k : Int) := by
      rw [← hl, padLeft4, digitsVal_pad, digitsVal_natDigits]
    rw [hval]
    rw [if_neg (by omega)]
    norm_num

theorem filenameChars_natCast (k : Nat) :
    filenameChars (k : Int) = padLeft4 (natDigits k) ++ ".AppImage".data := by
  rw [filenameChars, intRepr, if_neg (by omega)]
  norm_num

theorem takeWhile_canonical (k : Nat) :
    ('/' :: filenameChars (k : Int)).takeWhile (fun c => !(c == '.')) =
      '/' :: padLeft4 (natDigits k) := by
  rw [filenameChars_natCast]
  have hdot : ".AppImage".data = '.' :: "AppImage".data := rfl
  rw [hdot, List.takeWhile_cons, if_pos (by decide)]
  rw [takeWhile_append_all (fun a ha => by
    show (!(a == '.')) = true
    rw [(digit_range_props a (padLeft4_digits k a ha)).2.2.1]
    rfl)]
  rw [List.takeWhile_cons, if_neg (by decide), List.append_nil]

theorem resolve_canonical (env : Env) (st : FsState) (k : Nat) (hk : k ≤ 2147483647) :
    resolveChars env st ('/' :: filenameChars (k : Int)) = lookupPhase env st (k : Int) := by
  simp only [resolveChars, takeWhile_canonical k, List.head?_cons, List.tail_cons]
  rw [stoi_padded k hk]
  simp

/-- C1: the claim says a registered-file read returns zero for every
output byte whose file position lies in the fixed magic range (file
positions 8 to 10) and the untouched underlying byte elsewhere.  The
code computes the memset start as 8 - offset, so for a read at offset
10 the zeroed cells lie before the buffer and the visible byte at
file position 10, inside the magic range, is served unchanged (here
65 instead of 0); the code also writes two bytes before the start of
the kernel buffer there. -/
theorem c1_magic_byte_patch_bug :
    handleReadRegisteredAppImage (fun _ => 65) 20 1 10 = Except.ok [65] ∧
    magicBytesBegin ≤ 10 ∧ (10 : Int) ≤ magicBytesEnd ∧ (65 : Nat) ≠ 0 :=
  ⟨rfl, by decide, by decide, by decide⟩

/-- C3: the claim says a listing read at offset o with buffer size b
serves min(b, L - o) bytes of the freshly rendered listing.  The code
computes min(b, L) - o instead: for the 20 byte listing of stC3, a
read with b = 8 at o = 5 returns only 3 bytes where the claim
requires min(8, 20 - 5) = 8; when min(b, L) < o the size_t
subtraction wraps around and the read fails with EIO instead of
returning min(b, L - o) bytes. -/
theorem c3_read_map_window_bug :
    (handleReadMap envAllTrue stC3 8 5).1 = Except.ok [65, 112, 112] ∧
    min 8 (20 - 5) = 8 ∧
    (handleReadMap envAllTrue stC3 2 5).1 = Except.error (-5) :=
  ⟨rfl, by decide, rfl⟩

/-- C4: the claim says a registration-file read at offset o returns
the window of the static message starting at o (output byte i equals
message byte o + i).  The code instead copies the message from its
beginning to buffer position o and returns min(b, len) - o bytes, so
at o = 1 the first returned byte is stale buffer content (0 here) and
the second is message byte 0 (87), while the claim requires message
bytes 1 and 2 (114 and 105). -/
theorem c4_read_register_window_bug :
    (exceptBytes (handleWriteRegister (fun _ => 0) 200 1)).take 2 = [0, 87] ∧
    (strBytes registerMsg).take 3 = [87, 114, 105] :=
  ⟨rfl, rfl⟩

/-- C8: the claim says release succeeds and absorbs every
registration failure for every accumulated buffer content.  With an
empty buffer (open followed by close with no write) the trailing line
end strip loop calls back() on an empty string, an out of bounds
access (modelled as none), so the claim fails there; with a buffer
whose stripped content is nonempty, every registration outcome is
absorbed and 0 is returned, as the second conjunct shows for a path
whose registration fails with the not-found error. -/
theorem c8_release_empty_buffer_bug :
    release envAllFalse initState "/register" (some []) = none ∧
    release envAllFalse initState "/register" (some "/x".data) = some (0, initState) :=
  ⟨rfl, rfl⟩

/-- C2 counterexample: the claim says every path whose numeral fails
to parse as an integer resolves to the not-found error, and that the
canonical name of a registered id resolves to that entry.  First, the
numeral 9999999999 overflows int, std::stoi raises std::out_of_range,
and only std::invalid_argument is caught, so the error escapes
instead of becoming not-found.  Second, the canonical name of the
registered id 2 fails with not-found when its backing file is gone
from disk. -/
theorem c2_resolution_counterexample :
    (mapPathToRegisteredAppImage envAllFalse initState "/9999999999.AppImage").1 =
      ResolveResult.outOfRange ∧
    (mapPathToRegisteredAppImage envAllFalse stGone "/0002.AppImage").1 =
      ResolveResult.notFound :=
  ⟨by decide, by decide⟩



/-- C6 counterexample: the claim says the root listing holds one name
per currently-registered surviving (non stale) id, no more.  In
stStale the single registered id 0 has a backing path that is not a
regular file on disk under envAllFalse, yet readdir still lists its
synthetic name, because readdir performs no staleness check. -/
theorem c6_readdir_counterexample :
    readdir stStale "/" = Except.ok [".", "..", "map", "register", "0000.AppImage"] ∧
    envAllFalse.isRegularFile "/gone" = false :=
  ⟨rfl, rfl⟩

/-- C7: registering a path that does not exist on disk fails with the
file-not-found error and leaves the registry entries and the id
counter unchanged. -/
theorem c7_register_missing_path (env : Env) (st : FsState) (p : String)
    (h : env.pathExists p = false) :
    registerAppImage env st p = (.fileNotFound, st) := by
  rw [registerAppImage, h]
  simp

theorem c7_register_missing_path_witness :
    envAllFalse.pathExists "/w7" = false ∧
    registerAppImage envAllFalse initState "/w7" = (.fileNotFound, initState) :=
  ⟨rfl, c7_register_missing_path envAllFalse initState "/w7" rfl⟩

/-- C5: registering a path that exists on disk and is already
registered under exactly one id k fails with the already-registered
error carrying k, and leaves the registry entries and the id counter
unchanged. -/
theorem c5_duplicate_registration (env : Env) (st : FsState) (p : String) (k : Int) (e : Entry)
    (hex : env.pathExists p = true)
    (hmem : (k, e) ∈ st.entries) (hpath : e.path = p)
    (huniq : ∀ kv ∈ st.entries, kv.2.path = p → kv.1 = k) :
    registerAppImage env st p = (.alreadyRegistered k, st) := by
  rw [registerAppImage, if_pos hex]
  rcases hfind : st.entries.find? (fun kv => p == kv.2.path) with _ | kv0
  · exfalso
    apply List.find?_eq_none.mp hfind (k, e) hmem
    show (p == e.path) = true
    rw [hpath]
    exact beq_self_eq_true p
  · have hp0 := List.find?_some hfind
    have hm0 : kv0 ∈ st.entries := List.mem_of_find?_eq_some hfind
    have hp1 : p = kv0.2.path := eq_of_beq hp0
    have hid : kv0.1 = k := huniq kv0 hm0 hp1.symm
    simp only [hfind, hid]

theorem c5_duplicate_registration_witness :
    envAllTrue.pathExists "/w5" = true ∧ (3, entW5) ∈ stW5.entries ∧ entW5.path = "/w5" ∧
    registerAppImage envAllTrue stW5 "/w5" = (.alreadyRegistered 3, stW5) :=
  ⟨rfl, by decide, rfl,
    c5_duplicate_registration envAllTrue stW5 "/w5" 3 entW5 rfl (by decide) rfl (by decide)⟩

/-- C10: resolving the canonical name of an id that has no registry
entry fails with the not-found error and returns the registry exactly
as it was, although the lookup first default inserts an entry for the
id and only then erases it again (the default entry has an empty path
and is_regular_file of an empty path is false). -/
theorem c10_phantom_lookup_erase (env : Env) (st : FsState) (k : Nat)
    (hk : k ≤ 2147483647)
    (habsent : ∀ kv ∈ st.entries, kv.1 ≠ (k : Int))
    (hempty : env.isRegularFile "" = false) :
    resolveChars env st ('/' :: filenameChars (k : Int)) = (.notFound, st, []) := by
  rw [resolve_canonical env st k hk, lookupPhase]
  have hfind : st.entries.find? (fun kv => kv.1 == (k : Int)) = none := by
    apply List.find?_eq_none.mpr
    intro kv hkv hbeq
    exact habsent kv hkv (eq_of_beq hbeq)
  rw [hfind]
  have hdp : defaultEntry.path = "" := rfl
  simp only [hdp, hempty, Bool.false_eq_true, if_false]
  have hfilter :
      (((k : Int), defaultEntry) :: st.entries).filter (fun kv2 => !(kv2.1 == (k : Int))) =
        st.entries := by
    rw [List.filter_cons, if_neg (by simp)]
    apply List.filter_eq_self.mpr
    intro kv hkv
    show (!(kv.1 == (k : Int))) = true
    rw [Bool.not_eq_true', beq_eq_false_iff_ne]
    exact habsent kv hkv
  rw [hfilter]

theorem c10_phantom_lookup_erase_witness :
    (∀ kv ∈ initState.entries, kv.1 ≠ ((5 : Nat) : Int)) ∧
    envAllFalse.isRegularFile "" = false ∧
    resolveChars envAllFalse initState ('/' :: filenameChars ((5 : Nat) : Int)) =
      (.notFound, initState, []) :=
  ⟨by decide, rfl,
    c10_phantom_lookup_erase envAllFalse initState 5 (by norm_num) (by decide) rfl⟩

/-- C2 amended: for a registered id whose backing file still exists,
the canonical virtual name (leading slash, zero padded id, fixed
suffix) resolves to exactly that entry with the registry unchanged; a
path with a leading slash whose numeral admits no integer conversion
fails with the not-found error (not the invalid-path error); and a
path with a leading slash whose numeral parses but which differs from
the canonical rendering for the parsed id (padding, case or suffix)
also fails with the not-found error.  Numerals overflowing int are
excluded: there std::out_of_range escapes uncaught (see the
counterexample). -/
theorem c2_resolution_amended (env : Env) (st : FsState) :
    (∀ (k : Nat) (kv : Int × Entry), k ≤ 2147483647 →
      st.entries.find? (fun kv2 => kv2.1 == (k : Int)) = some kv →
      env.isRegularFile kv.2.path = true →
      resolveChars env st ('/' :: filenameChars (k : Int)) = (.ok kv.2, st, [])) ∧
    (∀ cs : List Char, cs.head? = some '/' →
      stoiChars ((cs.takeWhile (fun c => !(c == '.'))).tail) = .invalidArg →
      resolveChars env st cs = (.notFound, st, [])) ∧
    (∀ (cs : List Char) (n : Int), cs.head? = some '/' →
      stoiChars ((cs.takeWhile (fun c => !(c == '.'))).tail) = .ok n →
      cs ≠ '/' :: filenameChars n →
      resolveChars env st cs = (.notFound, st, [])) := by
  refine ⟨?_, ?_, ?_⟩
  · intro k kv hk hfind hdisk
    rw [resolve_canonical env st k hk, lookupPhase, hfind]
    simp [hdisk]
  · intro cs h1 h2
    rcases cs with _ | ⟨c, t⟩
    · exact absurd h1 (by simp)
    · have hc : c = '/' := by simpa using h1
      subst hc
      have htw : ('/' :: t).takeWhile (fun c => !(c == '.')) =
          '/' :: t.takeWhile (fun c => !(c == '.')) := by
        rw [List.takeWhile_cons, if_pos (by decide)]
      rw [htw, List.tail_cons] at h2
      simp only [resolveChars, htw, List.head?_cons, List.tail_cons, h2]
      rw [if_pos trivial]
  · intro cs n h1 h2 hne
    rcases cs with _ | ⟨c, t⟩
    · exact absurd h1 (by simp)
    · have hc : c = '/' := by simpa using h1
      subst hc
      have htw : ('/' :: t).takeWhile (fun c => !(c == '.')) =
          '/' :: t.takeWhile (fun c => !(c == '.')) := by
        rw [List.takeWhile_cons, if_pos (by decide)]
      rw [htw, List.tail_cons] at h2
      simp only [resolveChars, htw, List.head?_cons, List.tail_cons, h2]
      rw [if_neg hne, if_pos trivial]

theorem c2_resolution_witness :
    resolveChars envW2 stW2 ('/' :: filenameChars ((1 : Nat) : Int)) =
      (.ok { id := 1, path := "/w2" }, stW2, []) ∧
    resolveChars envW2 stW2 "/zz.AppImage".data = (.notFound, stW2, []) ∧
    resolveChars envW2 stW2 "/07.AppImage".data = (.notFound, stW2, []) :=
  ⟨(c2_resolution_amended envW2 stW2).1 1 (1, { id := 1, path := "/w2" })
      (by norm_num) rfl rfl,
    (c2_resolution_amended envW2 stW2).2.1 "/zz.AppImage".data rfl rfl,
    (c2_resolution_amended envW2 stW2).2.2 "/07.AppImage".data 7 rfl rfl (by decide)⟩

/-- C6 amended: listing any path other than the root fails with the
no-entry error; the root listing holds exactly the two dot names, the
two control file names, and one canonical synthetic name per
currently-registered id, whether or not its backing file still exists
on disk (readdir does not check staleness). -/
theorem c6_readdir_amended (st : FsState) (p : String) (s : String) :
    (p = "/" ∨ readdir st p = Except.error (-2)) ∧
    (s ∈ (readdir st "/").toOption.getD [] ↔
      s = "." ∨ s = ".." ∨ s = "map" ∨ s = "register" ∨
        ∃ kv ∈ st.entries, generateFilenameForId kv.1 = s) := by
  constructor
  · by_cases hp : p = "/"
    · exact Or.inl hp
    · exact Or.inr (by rw [readdir, if_neg hp])
  · rw [readdir, if_pos rfl]
    simp [Except.toOption]

theorem registerAppImage_spec (env : Env) (st : FsState) (p : String) :
    ∀ r st1, registerAppImage env st p = (r, st1) →
      (r = .ok st.counter ∧
        st1 = { entries := (st.counter, { id := st.counter, path := env.absolute p }) :: st.entries,
                counter := st.counter + 1 }) ∨
      (r = .couldNotOpen ∧ st1 = { st with counter := st.counter + 1 }) ∨
      ((r = .fileNotFound ∨ ∃ i, r = .alreadyRegistered i) ∧ st1 = st) := by
  intro r st1 h
  rw [registerAppImage] at h
  split at h
  · split at h
    · next kv _ =>
      injection h with h1 h2
      subst h1
      subst h2
      exact Or.inr (Or.inr ⟨Or.inr ⟨kv.1, rfl⟩, rfl⟩)
    · split at h
      · injection h with h1 h2
        subst h1
        subst h2
        exact Or.inl ⟨rfl, rfl⟩
      · injection h with h1 h2
        subst h1
        subst h2
        exact Or.inr (Or.inl ⟨rfl, rfl⟩)
  · injection h with h1 h2
    subst h1
    subst h2
    exact Or.inr (Or.inr ⟨Or.inl rfl, rfl⟩)

theorem lookupPhase_effects (env : Env) (st : FsState) (id : Int)
    (h0 : env.isRegularFile "" = false) (hInv : RegInv st) :
    RegInv (lookupPhase env st id).2.1 ∧
    (lookupPhase env st id).2.1.counter = st.counter ∧
    (∀ e ∈ (lookupPhase env st id).2.2, e < st.counter) := by
  rcases hfind : st.entries.find? (fun kv => kv.1 == id) with _ | kv
  · simp only [lookupPhase, hfind]
    rw [if_neg (by simp [show defaultEntry.path = "" from rfl, h0])]
    refine ⟨?_, rfl, by simp⟩
    intro kv2 hkv2
    rcases List.mem_filter.mp hkv2 with ⟨hm, hp⟩
    rcases List.mem_cons.mp hm with hh | hh
    · exfalso
      subst hh
      simp at hp
    · exact hInv kv2 hh
  · simp only [lookupPhase, hfind]
    have hkm : kv ∈ st.entries := List.mem_of_find?_eq_some hfind
    have hkid : kv.1 = id := by simpa using List.find?_some hfind
    by_cases hreg : env.isRegularFile kv.2.path = true
    · rw [if_pos hreg]
      exact ⟨hInv, rfl, by simp⟩
    · rw [if_neg hreg]
      refine ⟨?_, rfl, ?_⟩
      · intro kv2 hkv2
        exact hInv kv2 (List.mem_filter.mp hkv2).1
      · intro e he
        rw [List.mem_singleton] at he
        subst he
        rw [← hkid]
        exact hInv kv hkm

theorem resolveChars_effects (env : Env) (st : FsState) (cs : List Char)
    (h0 : env.isRegularFile "" = false) (hInv : RegInv st) :
    RegInv (resolveChars env st cs).2.1 ∧
    (resolveChars env st cs).2.1.counter = st.counter ∧
    (∀ e ∈ (resolveChars env st cs).2.2, e < st.counter) := by
  simp only [resolveChars]
  split
  · split
    · exact ⟨hInv, rfl, by simp⟩
    · exact ⟨hInv, rfl, by simp⟩
    · split
      · exact lookupPhase_effects env st _ h0 hInv
      · exact ⟨hInv, rfl, by simp⟩
  · exact ⟨hInv, rfl, by simp⟩

theorem generateTextMap_effects (env : Env) (st : FsState) (hInv : RegInv st) :
    RegInv (generateTextMap env st).2.1 ∧
    (generateTextMap env st).2.1.counter = st.counter ∧
    (∀ e ∈ (generateTextMap env st).2.2, e < st.counter) := by
  refine ⟨?_, rfl, ?_⟩
  · intro kv hkv
    simp only [generateTextMap] at hkv
    exact hInv kv (List.mem_filter.mp hkv).1
  · intro e he
    simp only [generateTextMap, List.mem_map, List.mem_filter] at he
    obtain ⟨kv, ⟨hm, -⟩, rfl⟩ := he
    exact hInv kv hm

theorem pairwise_evicted (l : List Int) : List.Pairwise eventOk (l.map Event.evicted) := by
  induction l with
  | nil => exact List.Pairwise.nil
  | cons a t ih =>
    rw [List.map_cons]
    refine List.Pairwise.cons ?_ ih
    intro b hb
    rcases List.mem_map.mp hb with ⟨c, -, rfl⟩
    exact trivial

theorem stepOk (env : Env) (op : Op) (st : FsState)
    (h0 : env.isRegularFile "" = false) (hInv : RegInv st) :
    RegInv (step env st op).1 ∧
    st.counter ≤ (step env st op).1.counter ∧
    List.Pairwise eventOk (step env st op).2 ∧
    (∀ a : Int, Event.assigned a ∈ (step env st op).2 →
      st.counter ≤ a ∧ a < (step env st op).1.counter) ∧
    (∀ e : Int, Event.evicted e ∈ (step env st op).2 → e < st.counter) := by
  cases op with
  | opRegister p =>
    rcases h : registerAppImage env st p with ⟨r, st1⟩
    rcases registerAppImage_spec env st p r st1 h with ⟨rfl, rfl⟩ | ⟨rfl, rfl⟩ | ⟨hcase, rfl⟩
    · simp only [step, h]
      refine ⟨?_, by simp, List.pairwise_singleton eventOk _, ?_, ?_⟩
      · intro kv hkv
        rcases List.mem_cons.mp hkv with hh | hh
        · subst hh
          simp
        · have := hInv kv hh
          simp
          omega
      · intro a ha
        rw [List.mem_singleton] at ha
        injection ha with ha2
        subst ha2
        exact ⟨le_refl _, by simp⟩
      · intro e he
        rw [List.mem_singleton] at he
        exact absurd he (by simp)
    · simp only [step, h]
      refine ⟨?_, by simp, List.Pairwise.nil, by simp, by simp⟩
      intro kv hkv
      have := hInv kv hkv
      simp
      omega
    · rcases hcase with rfl | ⟨i, rfl⟩ <;>
        · simp only [step, h]
          exact ⟨hInv, le_refl _, List.Pairwise.nil, by simp, by simp⟩
  | opResolve p =>
    have heff := resolveChars_effects env st p.data h0 hInv
    simp only [step]
    refine ⟨heff.1, le_of_eq heff.2.1.symm, pairwise_evicted _, ?_, ?_⟩
    · intro a ha
      rcases List.mem_map.mp ha with ⟨e, -, habs⟩
      exact Event.noConfusion habs
    · intro e he
      rcases List.mem_map.mp he with ⟨e2, hm2, heq⟩
      injection heq with heq2
      subst heq2
      exact heff.2.2 e2 hm2
  | opRenderMap =>
    have heff := generateTextMap_effects env st hInv
    simp only [step]
    refine ⟨heff.1, le_of_eq heff.2.1.symm, pairwise_evicted _, ?_, ?_⟩
    · intro a ha
      rcases List.mem_map.mp ha with ⟨e, -, habs⟩
      exact Event.noConfusion habs
    · intro e he
      rcases List.mem_map.mp he with ⟨e2, hm2, heq⟩
      injection heq with heq2
      subst heq2
      exact heff.2.2 e2 hm2

theorem runOk (env : Env) (ops : List Op) :
    ∀ st : FsState, env.isRegularFile "" = false → RegInv st →
      RegInv (runOps env st ops).1 ∧
      st.counter ≤ (runOps env st ops).1.counter ∧
      List.Pairwise eventOk (runOps env st ops).2 ∧
      (∀ a : Int, Event.assigned a ∈ (runOps env st ops).2 → st.counter ≤ a) ∧
      (∀ e : Int, Event.evicted e ∈ (runOps env st ops).2 → e < (runOps env st ops).1.counter) := by
  induction ops with
  | nil =>
    intro st h0 hInv
    exact ⟨hInv, le_refl _, List.Pairwise.nil, by simp [runOps], by simp [runOps]⟩
  | cons op ops ih =>
    intro st h0 hInv
    have hstep := stepOk env op st h0 hInv
    have hrun := ih (step env st op).1 h0 hstep.1
    simp only [runOps]
    refine ⟨hrun.1, le_trans hstep.2.1 hrun.2.1, ?_, ?_, ?_⟩
    · rw [List.pairwise_append]
      refine ⟨hstep.2.2.1, hrun.2.2.1, ?_⟩
      intro x hx y hy
      cases y with
      | assigned a =>
        have ha : (step env st op).1.counter ≤ a := hrun.2.2.2.1 a hy
        cases x with
        | assigned b =>
          have hb := hstep.2.2.2.1 b hx
          show b < a
          omega
        | evicted e =>
          have he := hstep.2.2.2.2 e hx
          have hle := hstep.2.1
          show e ≠ a
          omega
      | evicted f =>
        cases x <;> exact trivial
    · intro a ha
      rcases List.mem_append.mp ha with hh | hh
      · exact (hstep.2.2.2.1 a hh).1
      · exact le_trans hstep.2.1 (hrun.2.2.2.1 a hh)
    · intro e he
      rcases List.mem_append.mp he with hh | hh
      · have h1 := hstep.2.2.2.2 e hh
        have h2 := hstep.2.1
        have h3 := hrun.2.1
        omega
      · exact hrun.2.2.2.2 e hh

/-- C9: over any sequence of registration, resolution and listing
operations, the event trace satisfies: ids handed out by successful
registrations are strictly increasing in order of occurrence (hence
each id is assigned at most once), and an id whose entry was evicted
is never handed out by a later registration. -/
theorem c9_id_monotonicity (env : Env) (ops : List Op) (st : FsState)
    (h0 : env.isRegularFile "" = false) (hInv : RegInv st) :
    List.Pairwise eventOk (runOps env st ops).2 :=
  (runOk env ops st h0 hInv).2.2.1

theorem c9_id_monotonicity_witness :
    envW9.isRegularFile "" = false ∧ RegInv initState ∧
    List.Pairwise eventOk
      (runOps envW9 initState [Op.opRegister "/w9", Op.opRegister "/w9b", Op.opRenderMap]).2 :=
  ⟨rfl, fun kv h => absurd h (List.not_mem_nil kv),
    c9_id_monotonicity envW9 [Op.opRegister "/w9", Op.opRegister "/w9b", Op.opRenderMap]
      initState rfl (fun kv h => absurd h (List.not_mem_nil kv))⟩
